import Mathlib

/-!
Verification of the CoinCap rate-feed client of crypto-rate-utils
(src/api/coincap.ts): the asset registry, its merge rules, the push-payload
validator, the price lookup with its staleness contract, and the
subscription/reconnect behaviour.  Timestamps are modelled as integral
milliseconds (ℤ); decimal prices are modelled by `BigNum`, an abstraction of
the external bignumber.js values.
-/

set_option linter.unusedVariables false
set_option linter.unnecessarySimpa false
set_option linter.unreachableTactic false
set_option linter.unusedTactic false

namespace CryptoRateUtils

/-- Modelled from the spec: prices use the external bignumber.js
arbitrary-precision decimal library (the numeric layer is an external
collaborator).  A value is NaN, a signed infinity, or a finite signed
magnitude; `neg` is the stored sign bit (bignumber.js keeps a sign even for
zero, so "-0" has `neg = true`). -/
inductive BigNum where
  | nan : BigNum
  | inf : Bool → BigNum
  | fin : Bool → ℚ → BigNum
deriving DecidableEq

/-- bignumber.js `isPositive()`: true exactly when the stored sign is `+`
(NaN has no sign and yields false; zero with sign `+` yields true). -/
def BigNum.isPositive : BigNum → Bool
  | .nan => false
  | .inf neg => !neg
  | .fin neg _ => !neg

/-- bignumber.js `isFinite()`: true exactly when the value has a coefficient
(neither NaN nor an infinity). -/
def BigNum.isFinite : BigNum → Bool
  | .fin _ _ => true
  | _ => false

/-- Semantic value of a finite `BigNum`, as a rational. -/
def BigNum.toRat : BigNum → Option ℚ
  | .fin neg m => some (if neg then -m else m)
  | _ => none

/-- The value of a list of decimal digit characters. -/
def digitsToNat (ds : List Char) : ℕ :=
  ds.foldl (fun n c => 10 * n + (c.toNat - 48)) 0

/-- Split a leading run of decimal digits off a character list. -/
def takeDigits : List Char → List Char × List Char
  | [] => ([], [])
  | c :: cs =>
    if c.isDigit then
      let p := takeDigits cs
      (c :: p.1, p.2)
    else ([], c :: cs)

/-- A JavaScript word character (`\w`). -/
def isWordChar (c : Char) : Bool := c.isAlphanum || c == '_'

/-- Remove trailing whitespace. -/
def dropTrailingWs (cs : List Char) : List Char :=
  (cs.reverse.dropWhile Char.isWhitespace).reverse

/-- Modelled from the spec: the bignumber.js constructor first strips leading
and trailing whitespace together with a leading plus sign that is followed by
a word character or a dot, before recognising the number. -/
def stripWsPlus (cs : List Char) : List Char :=
  let t := dropTrailingWs (cs.dropWhile Char.isWhitespace)
  match t with
  | '+' :: c :: rest => if isWordChar c || c == '.' then c :: rest else t
  | _ => t

/-- Modelled from the spec: the bignumber.js recognition of the literals
`Infinity`, `-Infinity`, `NaN` and `-NaN`. -/
def parseSpecial (cs : List Char) : Option BigNum :=
  if cs = ("Infinity").data then some (.inf false)
  else if cs = ("-Infinity").data then some (.inf true)
  else if cs = ("NaN").data then some .nan
  else if cs = ("-NaN").data then some .nan
  else none

/-- Digit value of a character in bases up to 36 (out-of-range characters map
to 99, which is rejected by every base bound). -/
def digitVal (c : Char) : ℕ :=
  if c.isDigit then c.toNat - 48
  else if ('a' ≤ c.toLower ∧ c.toLower ≤ 'z') then c.toLower.toNat - 87
  else 99

/-- The base selected by a radix marker character (x, b or o). -/
def radixOfChar (c : Char) : Option ℕ :=
  if c == 'x' || c == 'X' then some 16
  else if c == 'b' || c == 'B' then some 2
  else if c == 'o' || c == 'O' then some 8
  else none

/-- The value of a digit list in a given base. -/
def valueInBase (base : ℕ) (ds : List Char) : ℕ :=
  ds.foldl (fun n c => base * n + digitVal c) 0

/-- Modelled from the spec: the value of a base-marked digit string (after the
0x/0b/0o marker), allowing one dot for a fractional part; any digit outside
the base yields NaN.  (The uniform-case restriction of bignumber.js on mixed
case digits is elided: digits are compared case-insensitively.) -/
def radixValue (neg : Bool) (base : ℕ) (cs : List Char) : BigNum :=
  let ip := cs.takeWhile (fun c => !(c == '.'))
  let rest := cs.dropWhile (fun c => !(c == '.'))
  let fp := rest.drop 1
  if rest.length ≠ 0 ∧ fp.any (fun c => c == '.') then .nan
  else if (ip ++ fp).all (fun c => digitVal c < base) ∧ (ip ++ fp).length ≠ 0 then
    .fin neg ((valueInBase base ip : ℚ) + (valueInBase base fp : ℚ) / (base : ℚ) ^ fp.length)
  else .nan

/-- Modelled from the spec: recognition of base-marked strings (0x…, 0b…,
0o…, optionally negated) by the bignumber.js constructor; the marker is only
honoured when followed by a word character and the remainder consists of word
characters and dots. -/
def parseRadix (cs : List Char) : Option BigNum :=
  let p : Bool × List Char := match cs with
    | '-' :: rest => (true, rest)
    | _ => (false, cs)
  match p.2 with
  | '0' :: m :: rest =>
    match radixOfChar m with
    | some base =>
      if rest.length ≠ 0 ∧ isWordChar (rest.headD ' ') ∧
          rest.all (fun c => isWordChar c || c == '.') then
        some (radixValue p.1 base rest)
      else none
    | none => none
  | _ => none

/-- Modelled from the spec: the exponent tail of a decimal numeric string
(`e` or `E`, an optional sign, then at least one digit, nothing after),
`some 0` when absent. -/
def parseExpPart : List Char → Option ℤ
  | [] => some 0
  | c :: rest =>
    if c == 'e' || c == 'E' then
      let p : Bool × List Char := match rest with
        | '-' :: r => (true, r)
        | '+' :: r => (false, r)
        | _ => (false, rest)
      let q := takeDigits p.2
      if q.1.length = 0 ∨ q.2.length ≠ 0 then none
      else some (if p.1 then -(digitsToNat q.1 : ℤ) else (digitsToNat q.1 : ℤ))
    else none

/-- Modelled from the spec: the decimal recognition of the bignumber.js
constructor (its isNumeric check): an optional minus sign, integer digits
with an optional dot and fraction digits (at least one of the two digit runs
non-empty; without a dot the integer run must be non-empty), then an optional
exponent.  Returns the sign, the two digit runs and the exponent. -/
def parseDecParts (cs : List Char) : Option (Bool × List Char × List Char × ℤ) :=
  let pneg : Bool × List Char := match cs with
    | '-' :: rest => (true, rest)
    | _ => (false, cs)
  let pint := takeDigits pneg.2
  let pdot : Bool × List Char := match pint.2 with
    | '.' :: rest => (true, rest)
    | _ => (false, pint.2)
  let pfrac := if pdot.1 then takeDigits pdot.2 else ([], pdot.2)
  let okMant : Bool :=
    if pdot.1 then pint.1.length ≠ 0 ∨ pfrac.1.length ≠ 0 else pint.1.length ≠ 0
  match parseExpPart pfrac.2 with
  | some ex => if okMant then some (pneg.1, pint.1, pfrac.1, ex) else none
  | none => none

/-- Modelled from the spec: the value of a decimal numeric string as a
bignumber.js value.  Zero keeps the written sign; the default exponent RANGE
of ±1e9 turns too-large magnitudes into a signed infinity and too-small ones
into a signed zero. -/
def parseDecimal (cs : List Char) : BigNum :=
  match parseDecParts cs with
  | none => .nan
  | some (neg, ip, fp, ex) =>
    let ds := ip ++ fp
    if ds.all (fun c => c == '0') then .fin neg 0
    else
      let lz := (ds.takeWhile (fun c => c == '0')).length
      let sciExp : ℤ := (ip.length : ℤ) - 1 - (lz : ℤ) + ex
      if sciExp > 1000000000 then .inf neg
      else if sciExp < -1000000000 then .fin neg 0
      else .fin neg ((digitsToNat ds : ℚ) * (10 : ℚ) ^ (ex - (fp.length : ℤ)))

/-- Modelled from the spec: `new BigNumber(s)` on a string — strip whitespace
and a leading plus, then recognise Infinity/NaN literals, base-marked
strings, or a decimal numeric string; anything else is NaN. -/
def bignumParse (s : String) : BigNum :=
  let cs := stripWsPlus s.data
  match parseSpecial cs with
  | some b => b
  | none =>
    match parseRadix cs with
    | some b => b
    | none => parseDecimal cs

/-- Modelled from the spec: `new BigNumber(q)` on a (finite) JavaScript
number. -/
def bignumOfRat (q : ℚ) : BigNum :=
  if q < 0 then .fin true (-q) else .fin false q

/-- A decoded JSON value, the result of `JSON.parse` on a socket message.
A failed parse is represented by `none` at use sites (`Option JsonVal`),
matching `parseJson` returning `undefined`. -/
inductive JsonVal where
  | null : JsonVal
  | bool : Bool → JsonVal
  | num : ℚ → JsonVal
  | str : String → JsonVal
  | arr : List JsonVal → JsonVal
  | obj : List (String × JsonVal) → JsonVal

/-- JavaScript `typeof o === 'object'` on a decoded payload: true for null,
arrays and objects; false for undefined (a failed parse), booleans, numbers
and strings. -/
def jsTypeofObject : Option JsonVal → Bool
  | some .null => true
  | some (.arr _) => true
  | some (.obj _) => true
  | _ => false

/-- `Object.keys` on a decoded payload (empty on the shapes where the
validator never reaches the key check). -/
def jsKeysList : Option JsonVal → List String
  | some (.obj fields) => fields.map Prod.fst
  | some (.arr es) => (List.range es.length).map toString
  | _ => []

/-- `Object.values` on a decoded payload. -/
def jsValuesList : Option JsonVal → List JsonVal
  | some (.obj fields) => fields.map Prod.snd
  | some (.arr es) => es
  | _ => []

/-- JavaScript property read `data[k]` on a decoded payload (objects by key,
arrays by canonical index string). -/
def jsGet : JsonVal → String → Option JsonVal
  | .obj fields, k => (fields.find? fun kv => kv.1 == k).map Prod.snd
  | .arr es, k =>
    match k.toNat? with
    | some n => if toString n == k then es.get? n else none
    | none => none
  | _, _ => none

/-- JavaScript truthiness of a decoded JSON value. -/
def jsTruthy : JsonVal → Bool
  | .null => false
  | .bool b => b
  | .num q => decide (q ≠ 0)
  | .str s => decide (s ≠ "")
  | .arr _ => true
  | .obj _ => true

/-- `new BigNumber(v)` on a decoded JSON value (only strings are reachable
after validation; numbers follow the numeric constructor, and the remaining
JavaScript coercions are collapsed to NaN). -/
def bignumOfJs : JsonVal → BigNum
  | .str s => bignumParse s
  | .num q => bignumOfRat q
  | _ => .nan

/-- One registry entry (interface CoinCapAsset of src/api/coincap.ts). -/
structure CoinCapAsset where
  id : String
  symbol : String
  price : BigNum
  updated : ℤ
  subscribe : Bool
deriving DecidableEq

/-- One item of the REST asset-list response. -/
structure AssetSnapshotItem where
  id : String
  symbol : String
  priceUsd : String
deriving DecidableEq

/-- The REST asset-list response (interface CoinCapAssetsResponse): the asset
items together with the server-asserted timestamp. -/
structure CoinCapAssetsResponse where
  data : List AssetSnapshotItem
  timestamp : ℤ
deriving DecidableEq

/-- `isValidPriceResponse` of src/api/coincap.ts, with the raising behaviour
made explicit: `typeof o === 'object'` lets null through and `Object.keys`
then throws a TypeError (`.error ()`); otherwise every key must be a known
asset id and every value a string whose BigNumber is sign-positive and
finite. -/
def isValidPriceResponseValue : JsonVal → Bool
  | .str s => (bignumParse s).isPositive && (bignumParse s).isFinite
  | _ => false

def isValidPriceResponse (o : Option JsonVal) (assets : List CoinCapAsset) :
    Except Unit Bool :=
  match o with
  | none => .ok false
  | some .null => .error ()
  | some (.obj fields) =>
    .ok ((fields.all fun kv => assets.any fun a => a.id == kv.1) &&
         (fields.all fun kv => isValidPriceResponseValue kv.2))
  | some (.arr es) =>
    .ok (((List.range es.length).all fun i => assets.any fun a => a.id == toString i) &&
         (es.all isValidPriceResponseValue))
  | some _ => .ok false

/-- Delay (ms) between polling requests (POLLING_REFRESH_INTERVAL). -/
def POLLING_REFRESH_INTERVAL : ℤ := 20000

/-- Maximum amount of time (ms) before a price is invalidated (MAX_PRICE_AGE). -/
def MAX_PRICE_AGE : ℤ := 30000

/-- `getAsset` of src/api/coincap.ts: first entry matching the argument on
either the id or the symbol field. -/
def getAsset (assets : List CoinCapAsset) (symbolOrId : String) :
    Option CoinCapAsset :=
  assets.find? fun asset => asset.id == symbolOrId || asset.symbol == symbolOrId

/-- `subscribeTo` of src/api/coincap.ts: set the subscribe flag on every
entry whose symbol matches. -/
def subscribeTo (assets : List CoinCapAsset) (symbol : String) :
    List CoinCapAsset :=
  assets.map fun asset =>
    if asset.symbol == symbol then { asset with subscribe := true } else asset

/-- `updatePrices` of src/api/coincap.ts: for each entry, when the payload has
a truthy value at the entry's id, replace the price and stamp the current
time; other entries are untouched. -/
def updatePrices (now : ℤ) (assets : List CoinCapAsset) (data : JsonVal) :
    List CoinCapAsset :=
  assets.map fun asset =>
    match jsGet data asset.id with
    | some v =>
      if jsTruthy v then { asset with price := bignumOfJs v, updated := now }
      else asset
    | none => asset

/-- `updateAssets` of src/api/coincap.ts: one output entry per snapshot item;
a fresher local entry (updated after the snapshot's timestamp) is kept as is,
otherwise the item is taken with `updated = min now timestamp` and the local
subscribe flag (false when the symbol was unknown). -/
def updateAssets (now : ℤ) (assets : List CoinCapAsset)
    (resp : CoinCapAssetsResponse) : List CoinCapAsset :=
  resp.data.map fun item =>
    match assets.find? (fun a => a.symbol == item.symbol) with
    | some asset =>
      if asset.updated > resp.timestamp then asset
      else
        { id := item.id, symbol := item.symbol, price := bignumParse item.priceUsd,
          updated := min now resp.timestamp, subscribe := asset.subscribe }
    | none =>
      { id := item.id, symbol := item.symbol, price := bignumParse item.priceUsd,
        updated := min now resp.timestamp, subscribe := false }

/-- The id list `resubscribe` computes for the socket URL: ids of the
subscribed entries. -/
def subscribedIds (assets : List CoinCapAsset) : List String :=
  (assets.filter fun a => a.subscribe).map fun a => a.id

/-- The connection request `resubscribe` issues: `none` when the subscribed
set is empty (no socket is opened), otherwise the full current id list. -/
def resubscribeRequest (assets : List CoinCapAsset) : Option (List String) :=
  let ids := subscribedIds assets
  if ids.isEmpty then none else some ids

/-- Errors `getPrice` can throw. -/
inductive PriceError where
  | unknownAsset : PriceError
  | stalePrice : PriceError
deriving DecidableEq

/-- `getPrice` of src/api/coincap.ts with the staleness bound as a parameter
(the source fixes it to MAX_PRICE_AGE, see `getPrice`): the result, the
registry after the call, and the list of connection requests the call
triggered (one per `resubscribe()` invocation). -/
def getPriceAux (maxAge now : ℤ) (assets : List CoinCapAsset) (symbol : String) :
    Except PriceError BigNum × List CoinCapAsset × List (Option (List String)) :=
  if symbol == "USD" then (.ok (BigNum.fin false 1), assets, [])
  else
    match getAsset assets symbol with
    | none => (.error .unknownAsset, assets, [])
    | some asset =>
      if now > asset.updated + maxAge then (.error .stalePrice, assets, [])
      else if !asset.subscribe then
        let newAssets := subscribeTo assets symbol
        (.ok asset.price, newAssets, [resubscribeRequest newAssets])
      else (.ok asset.price, assets, [])

/-- `getPrice` of src/api/coincap.ts, at the source's staleness bound. -/
def getPrice (now : ℤ) (assets : List CoinCapAsset) (symbol : String) :
    Except PriceError BigNum × List CoinCapAsset × List (Option (List String)) :=
  getPriceAux MAX_PRICE_AGE now assets symbol

/-- Outcome of the socket message handler. -/
inductive MessageError where
  | typeError : MessageError
  | invalidResponse : MessageError
deriving DecidableEq

/-- The `message` listener installed by `resubscribe`: validate the decoded
payload; a validator exception propagates, an invalid payload raises the
invalid-response error, and a valid payload is merged via `updatePrices`. -/
def handleMessage (now : ℤ) (assets : List CoinCapAsset)
    (parsed : Option JsonVal) : Except MessageError (List CoinCapAsset) :=
  match isValidPriceResponse parsed assets with
  | .error _ => .error .typeError
  | .ok false => .error .invalidResponse
  | .ok true =>
    match parsed with
    | some v => .ok (updatePrices now assets v)
    | none => .ok assets

/-- `fetchAssets` of src/api/coincap.ts as a registry transition: a failed
fetch is swallowed (`.catch`) and leaves the registry unchanged; a successful
one merges via `updateAssets`. -/
def fetchAssetsStep (now : ℤ) (assets : List CoinCapAsset)
    (result : Option CoinCapAssetsResponse) : List CoinCapAsset :=
  match result with
  | some resp => updateAssets now assets resp
  | none => assets

/-- The registry `connectCoinCap` holds when the factory resolves: the empty
registry merged with the outcome of the first fetch. -/
def connectCoinCapInit (now : ℤ) (firstFetch : Option CoinCapAssetsResponse) :
    List CoinCapAsset :=
  fetchAssetsStep now [] firstFetch

/-- One registry-mutating event during normal operation. -/
inductive FeedOp where
  | rest : CoinCapAssetsResponse → FeedOp
  | push : JsonVal → FeedOp
  | sub : String → FeedOp

/-- Apply one timestamped event to the registry. -/
def applyOp (assets : List CoinCapAsset) (top : ℤ × FeedOp) : List CoinCapAsset :=
  match top.2 with
  | .rest resp => updateAssets top.1 assets resp
  | .push data => updatePrices top.1 assets data
  | .sub s => subscribeTo assets s

/-- Run a sequence of timestamped events over the registry. -/
def runFeed (init : List CoinCapAsset) (ops : List (ℤ × FeedOp)) :
    List CoinCapAsset :=
  ops.foldl applyOp init

/-- The local clock is non-decreasing along a run starting at `t0`. -/
def clockMonoB (t0 : ℤ) : List (ℤ × FeedOp) → Bool
  | [] => true
  | (t, _) :: rest => decide (t0 ≤ t) && clockMonoB t rest

/-- Propositional form of clock monotonicity along a run. -/
def ClockMono (t0 : ℤ) (ops : List (ℤ × FeedOp)) : Prop :=
  clockMonoB t0 ops = true

/-- The socket handle: the id list it was opened with, whether its listeners
are still attached, and whether it has been closed. -/
structure SocketModel where
  ids : List String
  listeners : Bool
  closed : Bool
deriving DecidableEq

/-- The connection-level state of one client instance: the registry, the
current socket handle (the `socket` variable — it keeps referencing the last
socket even after a close), the polling interval, and the number of
`setTimeout(resubscribe, 5000)` reconnect timers currently pending. -/
structure Client where
  assets : List CoinCapAsset
  socket : Option SocketModel
  pollTimer : Bool
  pendingReconnects : ℕ
deriving DecidableEq

/-- Tearing down the current socket handle: listeners detached, closed. -/
def closeSocket : Option SocketModel → Option SocketModel
  | some sk => some { sk with listeners := false, closed := true }
  | none => none

/-- Is there an open socket? -/
def socketIsOpen : Option SocketModel → Bool
  | some sk => !sk.closed
  | none => false

/-- `resubscribe` of src/api/coincap.ts at the connection level: close and
detach the previous socket if any; if no asset is subscribed, stop (the old,
closed handle stays referenced); otherwise open a fresh socket carrying the
full current subscribed id set, with listeners attached. -/
def resubscribeStep (c : Client) : Client :=
  let c1 := { c with socket := closeSocket c.socket }
  let ids := subscribedIds c.assets
  if ids.isEmpty then c1
  else { c1 with socket := some { ids := ids, listeners := true, closed := false } }

/-- The socket firing its `close` (or `error`) event: when the listeners are
still attached the handler schedules one reconnect timer; a detached socket's
event does nothing. -/
def socketCloseEvent (c : Client) : Client :=
  match c.socket with
  | some sk =>
    if sk.listeners then { c with pendingReconnects := c.pendingReconnects + 1 }
    else c
  | none => c

/-- `disconnect` of src/api/coincap.ts: detach the socket's listeners and
close it when a socket exists, and clear the polling interval.  The body
performs no other action — in particular pending reconnect timers are not
cancelled. -/
def disconnect (c : Client) : Client :=
  { c with socket := closeSocket c.socket, pollTimer := false }

/-- A pending reconnect timer firing after a disconnect: the timer runs
`resubscribe` on the current state. -/
def reconnectTimerFire (c : Client) : Client :=
  if c.pendingReconnects = 0 then c
  else resubscribeStep { c with pendingReconnects := c.pendingReconnects - 1 }

/-- A run event keeps a symbol when it is a REST merge whose snapshot lists
the symbol, or any push/subscribe event (those never drop entries). -/
def KeepsSymbol (s : String) : FeedOp → Prop
  | .rest resp => ∃ i ∈ resp.data, i.symbol = s
  | .push _ => True
  | .sub _ => True

instance {ε α : Type} [DecidableEq ε] [DecidableEq α] :
    DecidableEq (Except ε α) := fun x y =>
  match x, y with
  | .ok a, .ok b => decidable_of_iff (a = b) (by simp)
  | .ok _, .error _ => .isFalse (by simp)
  | .error _, .ok _ => .isFalse (by simp)
  | .error e, .error f => decidable_of_iff (e = f) (by simp)

/-! Helper lemmas about the registry operations. -/

theorem subscribeTo_symbol_mem (assets : List CoinCapAsset) (symbol : String)
    (a : CoinCapAsset) (ha : a ∈ assets) (hs : a.symbol = symbol) :
    { a with subscribe := true } ∈ subscribeTo assets symbol := by
  refine List.mem_map.mpr ⟨a, ha, ?_⟩
  simp [hs]

theorem subscribedIds_mem (assets : List CoinCapAsset) (b : CoinCapAsset)
    (hb : b ∈ assets) (hsub : b.subscribe = true) :
    b.id ∈ subscribedIds assets :=
  List.mem_map.mpr ⟨b, List.mem_filter.mpr ⟨hb, by simp [hsub]⟩, rfl⟩

theorem subscribeTo_marks (assets : List CoinCapAsset) (symbol : String) :
    ∀ b ∈ subscribeTo assets symbol, b.symbol = symbol → b.subscribe = true := by
  intro b hb hsym
  obtain ⟨x, hx, rfl⟩ := List.mem_map.mp hb
  by_cases h : (x.symbol == symbol) = true
  · simp [h]
  · simp [h] at hsym ⊢
    exact absurd hsym (by simpa using h)

theorem find?_eq_some_of_unique {α : Type} (p : α → Bool) (l : List α) (e : α)
    (he : e ∈ l) (hp : p e = true) (huniq : ∀ b ∈ l, p b = true → b = e) :
    l.find? p = some e := by
  induction l with
  | nil => cases he
  | cons x xs ih =>
    by_cases hx : p x = true
    · have hxe : x = e := huniq x (List.mem_cons_self x xs) hx
      subst hxe
      simp [List.find?_cons_of_pos, hx]
    · have hxb : p x = false := by simpa using hx
      rw [List.find?_cons_of_neg _ (by simp [hxb])]
      have hxe : x ≠ e := fun h => hx (h ▸ hp)
      have he' : e ∈ xs := by
        rcases List.mem_cons.mp he with h | h
        · exact absurd h.symm hxe
        · exact h
      exact ih he' (fun b hb hpb => huniq b (List.mem_cons_of_mem _ hb) hpb)

theorem applyOp_updatedLE (t : ℤ) (op : FeedOp) (assets : List CoinCapAsset)
    (hWF : ∀ b ∈ assets, b.updated ≤ t) :
    ∀ b ∈ applyOp assets (t, op), b.updated ≤ t := by
  intro b hb
  cases op with
  | rest resp =>
    simp only [applyOp, updateAssets] at hb
    obtain ⟨item, hitem, rfl⟩ := List.mem_map.mp hb
    rcases hf : assets.find? (fun x => x.symbol == item.symbol) with _ | a0
    · rw [hf]
      exact min_le_left _ _
    · rw [hf]
      by_cases hk : a0.updated > resp.timestamp
      · simpa [hk] using hWF a0 (List.mem_of_find?_eq_some hf)
      · simpa [hk] using min_le_left t resp.timestamp
  | push data =>
    simp only [applyOp, updatePrices] at hb
    obtain ⟨x, hx, rfl⟩ := List.mem_map.mp hb
    rcases jsGet data x.id with _ | v
    · exact hWF x hx
    · by_cases hv : jsTruthy v = true
      · simp [hv]
      · simpa [hv] using hWF x hx
  | sub s =>
    simp only [applyOp, subscribeTo] at hb
    obtain ⟨x, hx, rfl⟩ := List.mem_map.mp hb
    by_cases hs : (x.symbol == s) = true <;> simpa [hs] using hWF x hx

theorem applyOp_symbol_step (t : ℤ) (op : FeedOp) (assets : List CoinCapAsset)
    (s : String) (u : ℤ)
    (hWF : ∀ b ∈ assets, b.updated ≤ t)
    (hAll : ∀ b ∈ assets, b.symbol = s → u ≤ b.updated)
    (hEx : ∃ b ∈ assets, b.symbol = s)
    (hKeep : KeepsSymbol s op) :
    (∀ b ∈ applyOp assets (t, op), b.symbol = s → u ≤ b.updated) ∧
    (∃ b ∈ applyOp assets (t, op), b.symbol = s) := by
  cases op with
  | rest resp =>
    constructor
    · intro b hb hbs
      simp only [applyOp, updateAssets] at hb
      obtain ⟨item, hitem, rfl⟩ := List.mem_map.mp hb
      rcases hf : assets.find? (fun x => x.symbol == item.symbol) with _ | a0
      · rw [hf] at hbs ⊢
        obtain ⟨b0, hb0, hb0s⟩ := hEx
        have : (b0.symbol == item.symbol) = true := by
          simp only [updateAssets] at hbs
          exact beq_iff_eq.mpr (hb0s.trans hbs.symm)
        exact absurd this (by simpa using List.find?_eq_none.mp hf b0 hb0)
      · rw [hf] at hbs ⊢
        have ha0 : a0 ∈ assets := List.mem_of_find?_eq_some hf
        have ha0s : a0.symbol = item.symbol :=
          eq_of_beq (List.find?_some (p := fun (x : CoinCapAsset) => x.symbol == item.symbol) hf)
        by_cases hk : a0.updated > resp.timestamp
        · simp only [hk, if_true] at hbs ⊢
          exact hAll a0 ha0 hbs
        · simp only [hk, if_false] at hbs ⊢
          have hitems : item.symbol = s := hbs
          have hu : u ≤ a0.updated := hAll a0 ha0 (ha0s.trans hitems)
          have h1 : a0.updated ≤ t := hWF a0 ha0
          have h2 : a0.updated ≤ resp.timestamp := by omega
          exact le_trans hu (le_min h1 h2)
    · obtain ⟨item, hitem, hitems⟩ := hKeep
      refine ⟨_, List.mem_map.mpr ⟨item, hitem, rfl⟩, ?_⟩
      rcases hf : assets.find? (fun x => x.symbol == item.symbol) with _ | a0
      · simpa [hf] using hitems
      · have ha0s : a0.symbol = item.symbol :=
          eq_of_beq (List.find?_some (p := fun (x : CoinCapAsset) => x.symbol == item.symbol) hf)
        by_cases hk : a0.updated > resp.timestamp
        · simpa [hf, hk] using ha0s.trans hitems
        · simpa [hf, hk] using hitems
  | push data =>
    constructor
    · intro b hb hbs
      simp only [applyOp, updatePrices] at hb
      obtain ⟨x, hx, rfl⟩ := List.mem_map.mp hb
      rcases hg : jsGet data x.id with _ | v
      · simp only [hg] at hbs ⊢
        exact hAll x hx hbs
      · by_cases hv : jsTruthy v = true
        · simp only [hg, hv, if_true] at hbs ⊢
          exact le_trans (hAll x hx hbs) (hWF x hx)
        · simp only [hg, hv, if_false, Bool.false_eq_true] at hbs ⊢
          exact hAll x hx hbs
    · obtain ⟨b0, hb0, hb0s⟩ := hEx
      refine ⟨_, List.mem_map.mpr ⟨b0, hb0, rfl⟩, ?_⟩
      rcases hg : jsGet data b0.id with _ | v
      · simpa [hg] using hb0s
      · by_cases hv : jsTruthy v = true <;> simp [hg, hv, hb0s]
  | sub s' =>
    constructor
    · intro b hb hbs
      simp only [applyOp, subscribeTo] at hb
      obtain ⟨x, hx, rfl⟩ := List.mem_map.mp hb
      by_cases hs : (x.symbol == s') = true
      · simp only [hs, if_true] at hbs ⊢
        exact hAll x hx hbs
      · simp only [hs, if_false, Bool.false_eq_true] at hbs ⊢
        exact hAll x hx hbs
    · obtain ⟨b0, hb0, hb0s⟩ := hEx
      refine ⟨_, List.mem_map.mpr ⟨b0, hb0, rfl⟩, ?_⟩
      by_cases hs : (b0.symbol == s') = true <;> simpa [hs] using hb0s

theorem applyOp_subscribe_step (t : ℤ) (op : FeedOp) (assets : List CoinCapAsset)
    (s : String)
    (hAll : ∀ b ∈ assets, b.symbol = s → b.subscribe = true)
    (hEx : ∃ b ∈ assets, b.symbol = s)
    (hKeep : KeepsSymbol s op) :
    (∀ b ∈ applyOp assets (t, op), b.symbol = s → b.subscribe = true) ∧
    (∃ b ∈ applyOp assets (t, op), b.symbol = s) := by
  cases op with
  | rest resp =>
    constructor
    · intro b hb hbs
      simp only [applyOp, updateAssets] at hb
      obtain ⟨item, hitem, rfl⟩ := List.mem_map.mp hb
      rcases hf : assets.find? (fun x => x.symbol == item.symbol) with _ | a0
      · rw [hf] at hbs ⊢
        obtain ⟨b0, hb0, hb0s⟩ := hEx
        have : (b0.symbol == item.symbol) = true := by
          simp only [updateAssets] at hbs
          exact beq_iff_eq.mpr (hb0s.trans hbs.symm)
        exact absurd this (by simpa using List.find?_eq_none.mp hf b0 hb0)
      · rw [hf] at hbs ⊢
        have ha0 : a0 ∈ assets := List.mem_of_find?_eq_some hf
        have ha0s : a0.symbol = item.symbol :=
          eq_of_beq (List.find?_some (p := fun (x : CoinCapAsset) => x.symbol == item.symbol) hf)
        by_cases hk : a0.updated > resp.timestamp
        · simp only [hk, if_true] at hbs ⊢
          exact hAll a0 ha0 hbs
        · simp only [hk, if_false] at hbs ⊢
          exact hAll a0 ha0 (ha0s.trans hbs)
    · obtain ⟨item, hitem, hitems⟩ := hKeep
      refine ⟨_, List.mem_map.mpr ⟨item, hitem, rfl⟩, ?_⟩
      rcases hf : assets.find? (fun x => x.symbol == item.symbol) with _ | a0
      · simpa [hf] using hitems
      · have ha0s : a0.symbol = item.symbol :=
          eq_of_beq (List.find?_some (p := fun (x : CoinCapAsset) => x.symbol == item.symbol) hf)
        by_cases hk : a0.updated > resp.timestamp
        · simpa [hf, hk] using ha0s.trans hitems
        · simpa [hf, hk] using hitems
  | push data =>
    constructor
    · intro b hb hbs
      simp only [applyOp, updatePrices] at hb
      obtain ⟨x, hx, rfl⟩ := List.mem_map.mp hb
      rcases hg : jsGet data x.id with _ | v
      · simp only [hg] at hbs ⊢
        exact hAll x hx hbs
      · by_cases hv : jsTruthy v = true
        · simp only [hg, hv, if_true] at hbs ⊢
          exact hAll x hx hbs
        · simp only [hg, hv, if_false, Bool.false_eq_true] at hbs ⊢
          exact hAll x hx hbs
    · obtain ⟨b0, hb0, hb0s⟩ := hEx
      refine ⟨_, List.mem_map.mpr ⟨b0, hb0, rfl⟩, ?_⟩
      rcases hg : jsGet data b0.id with _ | v
      · simpa [hg] using hb0s
      · by_cases hv : jsTruthy v = true <;> simp [hg, hv, hb0s]
  | sub s' =>
    constructor
    · intro b hb hbs
      simp only [applyOp, subscribeTo] at hb
      obtain ⟨x, hx, rfl⟩ := List.mem_map.mp hb
      by_cases hs : (x.symbol == s') = true
      · simp [hs]
      · simp only [hs, if_false, Bool.false_eq_true] at hbs ⊢
        exact hAll x hx hbs
    · obtain ⟨b0, hb0, hb0s⟩ := hEx
      refine ⟨_, List.mem_map.mpr ⟨b0, hb0, rfl⟩, ?_⟩
      by_cases hs : (b0.symbol == s') = true <;> simpa [hs] using hb0s

theorem runFeed_symbol_mono (ops : List (ℤ × FeedOp)) :
    ∀ (t0 u : ℤ) (assets : List CoinCapAsset) (s : String),
    ClockMono t0 ops →
    (∀ b ∈ assets, b.updated ≤ t0) →
    (∀ b ∈ assets, b.symbol = s → u ≤ b.updated) →
    (∃ b ∈ assets, b.symbol = s) →
    (∀ p ∈ ops, KeepsSymbol s p.2) →
    (∀ b ∈ runFeed assets ops, b.symbol = s → u ≤ b.updated) ∧
    (∃ b ∈ runFeed assets ops, b.symbol = s) := by
  induction ops with
  | nil =>
    intro t0 u assets s _ _ hAll hEx _
    simpa [runFeed] using ⟨hAll, hEx⟩
  | cons p rest ih =>
    rintro t0 u assets s hC hWF hAll hEx hKeep
    obtain ⟨t, op⟩ := p
    have hC2 : t0 ≤ t ∧ clockMonoB t rest = true := by
      simpa [ClockMono, clockMonoB] using hC
    have hWFt : ∀ b ∈ assets, b.updated ≤ t :=
      fun b hb => le_trans (hWF b hb) hC2.1
    have step := applyOp_symbol_step t op assets s u hWFt hAll hEx
      (hKeep (t, op) (List.mem_cons_self _ _))
    have wfNext := applyOp_updatedLE t op assets hWFt
    have hrest : ∀ q ∈ rest, KeepsSymbol s q.2 :=
      fun q hq => hKeep q (List.mem_cons_of_mem _ hq)
    have main := ih t u (applyOp assets (t, op)) s hC2.2 wfNext step.1 step.2 hrest
    simpa [runFeed, List.foldl_cons] using main

theorem runFeed_subscribe_persists (ops : List (ℤ × FeedOp)) :
    ∀ (assets : List CoinCapAsset) (s : String),
    (∀ b ∈ assets, b.symbol = s → b.subscribe = true) →
    (∃ b ∈ assets, b.symbol = s) →
    (∀ p ∈ ops, KeepsSymbol s p.2) →
    (∀ b ∈ runFeed assets ops, b.symbol = s → b.subscribe = true) ∧
    (∃ b ∈ runFeed assets ops, b.symbol = s) := by
  induction ops with
  | nil =>
    intro assets s hAll hEx _
    simpa [runFeed] using ⟨hAll, hEx⟩
  | cons p rest ih =>
    rintro assets s hAll hEx hKeep
    obtain ⟨t, op⟩ := p
    have step := applyOp_subscribe_step t op assets s hAll hEx
      (hKeep (t, op) (List.mem_cons_self _ _))
    have hrest : ∀ q ∈ rest, KeepsSymbol s q.2 :=
      fun q hq => hKeep q (List.mem_cons_of_mem _ hq)
    have main := ih (applyOp assets (t, op)) s step.1 step.2 hrest
    simpa [runFeed, List.foldl_cons] using main

/-! Lemmas about the numeric parser: every finite parse has a non-negative
magnitude (the sign lives in the sign bit). -/

theorem parseSpecial_ne_fin (cs : List Char) (neg : Bool) (m : ℚ)
    (h : parseSpecial cs = some (.fin neg m)) : False := by
  unfold parseSpecial at h
  split_ifs at h <;> simp_all

theorem radixValue_nonneg (sgn : Bool) (base : ℕ) (cs : List Char)
    (neg : Bool) (m : ℚ) (h : radixValue sgn base cs = .fin neg m) : 0 ≤ m := by
  unfold radixValue at h
  dsimp only at h
  split_ifs at h
  injection h with h1 h2
  subst h2
  positivity

theorem parseDecimal_nonneg (cs : List Char) (neg : Bool) (m : ℚ)
    (h : parseDecimal cs = .fin neg m) : 0 ≤ m := by
  unfold parseDecimal at h
  dsimp only at h
  split at h
  · exact absurd h (by simp)
  · split_ifs at h
    all_goals
      (injection h with h1 h2
       subst h2
       first
         | positivity
         | norm_num)

theorem parseRadix_fin_nonneg (cs : List Char) (neg : Bool) (m : ℚ)
    (h : parseRadix cs = some (.fin neg m)) : 0 ≤ m := by
  unfold parseRadix at h
  dsimp only at h
  split at h
  · split at h
    · split_ifs at h
      all_goals try exact Option.noConfusion h
      exact radixValue_nonneg _ _ _ _ _ (Option.some.inj h)
    · exact Option.noConfusion h
  · exact Option.noConfusion h

theorem bignumParse_fin_nonneg (s : String) (neg : Bool) (m : ℚ)
    (h : bignumParse s = .fin neg m) : 0 ≤ m := by
  unfold bignumParse at h
  dsimp only at h
  rcases hs : parseSpecial (stripWsPlus s.data) with _ | b
  · simp only [hs] at h
    rcases hr : parseRadix (stripWsPlus s.data) with _ | b2
    · simp only [hr] at h
      exact parseDecimal_nonneg _ _ _ h
    · simp only [hr] at h
      subst h
      exact parseRadix_fin_nonneg _ _ _ hr
  · simp only [hs] at h
    subst h
    exact absurd hs (fun hh => parseSpecial_ne_fin _ _ _ hh)

theorem isValidPriceResponseValue_props (v : JsonVal)
    (h : isValidPriceResponseValue v = true) :
    ∃ s q, v = .str s ∧ (bignumParse s).toRat = some q ∧ 0 ≤ q := by
  cases v with
  | str s =>
    simp only [isValidPriceResponseValue, Bool.and_eq_true] at h
    rcases hb : bignumParse s with _ | sg | ⟨sg, m⟩
    · rw [hb] at h
      simp [BigNum.isPositive] at h
    · rw [hb] at h
      simp [BigNum.isFinite] at h
    · have hsg : sg = false := by
        have h1 := h.1
        rw [hb] at h1
        simpa [BigNum.isPositive] using h1
      refine ⟨s, m, rfl, ?_, bignumParse_fin_nonneg s sg m hb⟩
      rw [hb, hsg]
      simp [BigNum.toRat]
  | null => simp [isValidPriceResponseValue] at h
  | bool b => simp [isValidPriceResponseValue] at h
  | num q => simp [isValidPriceResponseValue] at h
  | arr es => simp [isValidPriceResponseValue] at h
  | obj fields => simp [isValidPriceResponseValue] at h

/-! Theorems settling the claims. -/

/-- C1: for a known lookup key other than the hard-coded reference currency,
`getPrice` (at any staleness bound, the source fixing the bound to
MAX_PRICE_AGE = 30000 ms) throws the stale-price error exactly when
`now - updatedAt` exceeds the bound, and returns the stored price otherwise. -/
theorem c1_getPrice_stale_iff (maxAge now : ℤ) (assets : List CoinCapAsset)
    (symbol : String) (a : CoinCapAsset)
    (hUsd : symbol ≠ ("USD")) (hFound : getAsset assets symbol = some a) :
    ((getPriceAux maxAge now assets symbol).1 = .error .stalePrice ↔
      now - a.updated > maxAge) ∧
    (¬ now - a.updated > maxAge →
      (getPriceAux maxAge now assets symbol).1 = .ok a.price) ∧
    getPrice now assets symbol = getPriceAux MAX_PRICE_AGE now assets symbol := by
  have hb : (symbol == ("USD")) = false := beq_eq_false_iff_ne.mpr hUsd
  have key : (getPriceAux maxAge now assets symbol).1 =
      if now > a.updated + maxAge then .error .stalePrice else .ok a.price := by
    by_cases hst : now > a.updated + maxAge
    · simp [getPriceAux, hb, hFound, hst]
    · by_cases hsub : a.subscribe <;>
        simp [getPriceAux, hb, hFound, hst, hsub]
  refine ⟨?_, ?_, rfl⟩
  · rw [key]
    constructor
    · intro h
      by_cases hst : now > a.updated + maxAge
      · omega
      · simp [hst] at h
    · intro h
      have hst : now > a.updated + maxAge := by omega
      simp [hst]
  · intro h
    have hst : ¬ now > a.updated + maxAge := by omega
    rw [key]
    simp [hst]

/-- C1 witness: a fresh BTC entry (updated 1 s ago, bound 30 s) at a concrete
registry. -/
theorem c1_witness :
    (("BTC") : String) ≠ ("USD") ∧
    getAsset [⟨("bitcoin"), ("BTC"), .fin false 1, 99000, true⟩] ("BTC") =
      some ⟨("bitcoin"), ("BTC"), .fin false 1, 99000, true⟩ ∧
    (((getPriceAux 30000 100000 [⟨("bitcoin"), ("BTC"), .fin false 1, 99000, true⟩]
        ("BTC")).1 = .error .stalePrice ↔ (100000 : ℤ) - 99000 > 30000) ∧
      (¬ (100000 : ℤ) - 99000 > 30000 →
        (getPriceAux 30000 100000 [⟨("bitcoin"), ("BTC"), .fin false 1, 99000, true⟩]
          ("BTC")).1 = .ok (BigNum.fin false 1)) ∧
      getPrice 100000 [⟨("bitcoin"), ("BTC"), .fin false 1, 99000, true⟩] ("BTC") =
        getPriceAux MAX_PRICE_AGE 100000
          [⟨("bitcoin"), ("BTC"), .fin false 1, 99000, true⟩] ("BTC")) :=
  ⟨by decide, rfl,
    c1_getPrice_stale_iff 30000 100000
      [⟨("bitcoin"), ("BTC"), .fin false 1, 99000, true⟩] ("BTC")
      ⟨("bitcoin"), ("BTC"), .fin false 1, 99000, true⟩ (by decide) rfl⟩

/-- C2: calling `getPrice` with the symbol of a known, fresh, unsubscribed
entry returns that entry's price from before the reconnect, replaces the
registry by the subscribe-marked one (every entry with that symbol is now
subscribed), and triggers exactly one connection request, which carries the
entry's id in its subscribed id set. -/
theorem c2_getPrice_subscribes (now : ℤ) (assets : List CoinCapAsset)
    (symbol : String) (a : CoinCapAsset)
    (hUsd : symbol ≠ ("USD")) (hFound : getAsset assets symbol = some a)
    (hSym : a.symbol = symbol) (hSub : a.subscribe = false)
    (hFresh : ¬ now > a.updated + MAX_PRICE_AGE) :
    (getPrice now assets symbol).1 = .ok a.price ∧
    (getPrice now assets symbol).2.1 = subscribeTo assets symbol ∧
    (∀ b ∈ subscribeTo assets symbol, b.symbol = symbol → b.subscribe = true) ∧
    ∃ ids, (getPrice now assets symbol).2.2 = [some ids] ∧ a.id ∈ ids := by
  have hb : (symbol == ("USD")) = false := beq_eq_false_iff_ne.mpr hUsd
  have hmem : a ∈ assets := List.mem_of_find?_eq_some hFound
  have hmark : { a with subscribe := true } ∈ subscribeTo assets symbol :=
    subscribeTo_symbol_mem assets symbol a hmem hSym
  have hid : a.id ∈ subscribedIds (subscribeTo assets symbol) :=
    subscribedIds_mem _ { a with subscribe := true } hmark rfl
  have hne : (subscribedIds (subscribeTo assets symbol)).isEmpty = false := by
    cases h : subscribedIds (subscribeTo assets symbol) with
    | nil => rw [h] at hid; cases hid
    | cons x xs => simp
  refine ⟨?_, ?_, subscribeTo_marks assets symbol, ?_⟩
  · simp [getPrice, getPriceAux, hb, hFound, hFresh, hSub]
  · simp [getPrice, getPriceAux, hb, hFound, hFresh, hSub]
  · refine ⟨subscribedIds (subscribeTo assets symbol), ?_, hid⟩
    simp [getPrice, getPriceAux, hb, hFound, hFresh, hSub, resubscribeRequest, hne]

/-- C2 witness: an unsubscribed fresh BTC entry; the call returns its price,
marks it subscribed and issues one request containing its id. -/
theorem c2_witness :
    (("BTC") : String) ≠ ("USD") ∧
    getAsset [⟨("bitcoin"), ("BTC"), .fin false 1, 99000, false⟩] ("BTC") =
      some ⟨("bitcoin"), ("BTC"), .fin false 1, 99000, false⟩ ∧
    ((getPrice 100000 [⟨("bitcoin"), ("BTC"), .fin false 1, 99000, false⟩]
        ("BTC")).1 = .ok (BigNum.fin false 1) ∧
      (getPrice 100000 [⟨("bitcoin"), ("BTC"), .fin false 1, 99000, false⟩]
        ("BTC")).2.1 =
        subscribeTo [⟨("bitcoin"), ("BTC"), .fin false 1, 99000, false⟩] ("BTC") ∧
      (∀ b ∈ subscribeTo [⟨("bitcoin"), ("BTC"), .fin false 1, 99000, false⟩] ("BTC"),
        b.symbol = ("BTC") → b.subscribe = true) ∧
      ∃ ids,
        (getPrice 100000 [⟨("bitcoin"), ("BTC"), .fin false 1, 99000, false⟩]
          ("BTC")).2.2 = [some ids] ∧ ("bitcoin") ∈ ids) :=
  ⟨by decide, rfl,
    c2_getPrice_subscribes 100000
      [⟨("bitcoin"), ("BTC"), .fin false 1, 99000, false⟩] ("BTC")
      ⟨("bitcoin"), ("BTC"), .fin false 1, 99000, false⟩
      (by decide) rfl rfl rfl (by decide)⟩

/-- C4 counterexample: a registry entry (BTC) is present before a REST merge
whose snapshot omits it, and the merge deletes it — `updateAssets` keys its
output on the snapshot, so entries absent from the snapshot do not survive. -/
theorem c4_counterexample :
    (⟨("bitcoin"), ("BTC"), .fin false 1, 1, false⟩ : CoinCapAsset) ∈
      ([⟨("bitcoin"), ("BTC"), .fin false 1, 1, false⟩] : List CoinCapAsset) ∧
    updateAssets 5 [⟨("bitcoin"), ("BTC"), .fin false 1, 1, false⟩]
      ⟨[], 3⟩ = [] :=
  ⟨List.mem_singleton.mpr rfl, rfl⟩

/-- C4 (amended): push merges and subscribe transitions never delete (nor
re-key) entries — they preserve the symbol list exactly — while a REST merge
replaces the registry with one entry per snapshot item: afterwards the
registry's symbols are exactly the snapshot's symbols, so an asset persists
under its symbol exactly when the snapshot lists that symbol. -/
theorem c4_merge_shape (now : ℤ) (assets : List CoinCapAsset)
    (resp : CoinCapAssetsResponse) (data : JsonVal) (s : String) :
    (updatePrices now assets data).map (fun a => a.symbol) =
      assets.map (fun a => a.symbol) ∧
    (subscribeTo assets s).map (fun a => a.symbol) =
      assets.map (fun a => a.symbol) ∧
    (updateAssets now assets resp).map (fun a => a.symbol) =
      resp.data.map (fun i => i.symbol) := by
  refine ⟨?_, ?_, ?_⟩
  · rw [updatePrices, List.map_map]
    refine List.map_congr_left ?_
    intro a ha
    simp only [Function.comp]
    rcases jsGet data a.id with _ | v
    · rfl
    · by_cases h : jsTruthy v <;> simp [h]
  · rw [subscribeTo, List.map_map]
    refine List.map_congr_left ?_
    intro a ha
    simp only [Function.comp]
    by_cases h : (a.symbol == s) = true <;> simp [h]
  · rw [updateAssets, List.map_map]
    refine List.map_congr_left ?_
    intro item hitem
    simp only [Function.comp]
    rcases hf : assets.find? (fun x => x.symbol == item.symbol) with _ | b
    · rw [hf]
    · have hb : (b.symbol == item.symbol) = true :=
        List.find?_some (p := fun (x : CoinCapAsset) => x.symbol == item.symbol) hf
      rw [hf]
      by_cases h : b.updated > resp.timestamp <;>
        simp [h, eq_of_beq hb]

/-- C8 counterexample: a subscribed client opens a socket, the socket fires
`close` (scheduling the 5 s reconnect timer), then `disconnect` is called —
the reconnect timer is still pending after the disconnect, because
`disconnect` only detaches/closes the socket and clears the polling interval. -/
theorem c8_counterexample :
    (disconnect (socketCloseEvent (resubscribeStep
      ⟨[⟨("bitcoin"), ("BTC"), .fin false 1, 0, true⟩], none, true,
        0⟩))).pendingReconnects ≠ 0 := by
  decide

/-- C8 (amended): `disconnect` is idempotent (a second call is a no-op, and
the body never raises, being modelled by a total transition), and afterwards
the polling timer is stopped and no open socket remains; however pending
reconnect timers are untouched — `disconnect` does not cancel them. -/
theorem c8_disconnect_idempotent (c : Client) :
    disconnect (disconnect c) = disconnect c ∧
    (disconnect c).pollTimer = false ∧
    socketIsOpen (disconnect c).socket = false ∧
    (disconnect c).pendingReconnects = c.pendingReconnects := by
  refine ⟨?_, rfl, ?_, rfl⟩
  · unfold disconnect
    cases c.socket <;> simp [closeSocket]
  · unfold disconnect
    cases c.socket <;> simp [closeSocket, socketIsOpen]

/-- C9 counterexample: the registry holds an entry e with id "B" and symbol
"A"; because the lookup scans for the first entry matching on either field,
`getPrice("B")` resolves to a different entry (one whose symbol is "B") than
`getPrice("A")` (one whose id is "A"), and the two calls return different
prices. -/
theorem c9_counterexample :
    (⟨("B"), ("A"), .fin false 3, 0, true⟩ : CoinCapAsset) ∈
      ([⟨("A"), ("Z"), .fin false 1, 0, true⟩,
        ⟨("Y"), ("B"), .fin false 2, 0, true⟩,
        ⟨("B"), ("A"), .fin false 3, 0, true⟩] : List CoinCapAsset) ∧
    (getPrice 0 [⟨("A"), ("Z"), .fin false 1, 0, true⟩,
        ⟨("Y"), ("B"), .fin false 2, 0, true⟩,
        ⟨("B"), ("A"), .fin false 3, 0, true⟩] ("B")).1 = .ok (.fin false 2) ∧
    (getPrice 0 [⟨("A"), ("Z"), .fin false 1, 0, true⟩,
        ⟨("Y"), ("B"), .fin false 2, 0, true⟩,
        ⟨("B"), ("A"), .fin false 3, 0, true⟩] ("A")).1 = .ok (.fin false 1) ∧
    (Except.ok (BigNum.fin false 2) : Except PriceError BigNum) ≠
      .ok (.fin false 1) := by
  refine ⟨by decide, rfl, rfl, by decide⟩

/-- C9 (amended): when the entry is the unique registry entry matching its id
`i` on either field, and likewise the unique one matching its symbol `s`,
the lookup resolves both `i` and `s` to that entry, and (away from the
reference currency) `getPrice(i)` and `getPrice(s)` return the same result. -/
theorem c9_lookup_either_field (assets : List CoinCapAsset) (e : CoinCapAsset)
    (i s : String) (he : e ∈ assets) (hid : e.id = i) (hsym : e.symbol = s)
    (hui : ∀ b ∈ assets, (b.id = i ∨ b.symbol = i) → b = e)
    (hus : ∀ b ∈ assets, (b.id = s ∨ b.symbol = s) → b = e) :
    getAsset assets i = some e ∧ getAsset assets s = some e ∧
    ∀ maxAge now : ℤ, i ≠ ("USD") → s ≠ ("USD") →
      (getPriceAux maxAge now assets i).1 = (getPriceAux maxAge now assets s).1 := by
  have hfi : getAsset assets i = some e := by
    refine find?_eq_some_of_unique _ assets e he ?_ ?_
    · simp [hid]
    · intro b hb hpb
      refine hui b hb ?_
      rcases Bool.or_eq_true_iff.mp hpb with h | h
      · exact Or.inl (eq_of_beq h)
      · exact Or.inr (eq_of_beq h)
  have hfs : getAsset assets s = some e := by
    refine find?_eq_some_of_unique _ assets e he ?_ ?_
    · simp [hsym]
    · intro b hb hpb
      refine hus b hb ?_
      rcases Bool.or_eq_true_iff.mp hpb with h | h
      · exact Or.inl (eq_of_beq h)
      · exact Or.inr (eq_of_beq h)
  refine ⟨hfi, hfs, ?_⟩
  intro maxAge now hiu hsu
  have hbi : (i == ("USD")) = false := beq_eq_false_iff_ne.mpr hiu
  have hbs : (s == ("USD")) = false := beq_eq_false_iff_ne.mpr hsu
  by_cases hst : now > e.updated + maxAge
  · simp [getPriceAux, hbi, hbs, hfi, hfs, hst]
  · by_cases hsub : e.subscribe <;>
      simp [getPriceAux, hbi, hbs, hfi, hfs, hst, hsub]

/-- C9 witness: a one-entry registry, where uniqueness holds trivially. -/
theorem c9_witness :
    ((⟨("bitcoin"), ("BTC"), .fin false 1, 0, false⟩ : CoinCapAsset) ∈
      ([⟨("bitcoin"), ("BTC"), .fin false 1, 0, false⟩] : List CoinCapAsset)) ∧
    (getAsset [⟨("bitcoin"), ("BTC"), .fin false 1, 0, false⟩] ("bitcoin") =
        some ⟨("bitcoin"), ("BTC"), .fin false 1, 0, false⟩ ∧
      getAsset [⟨("bitcoin"), ("BTC"), .fin false 1, 0, false⟩] ("BTC") =
        some ⟨("bitcoin"), ("BTC"), .fin false 1, 0, false⟩ ∧
      ∀ maxAge now : ℤ, ("bitcoin" : String) ≠ ("USD") → ("BTC" : String) ≠ ("USD") →
        (getPriceAux maxAge now [⟨("bitcoin"), ("BTC"), .fin false 1, 0, false⟩]
            ("bitcoin")).1 =
          (getPriceAux maxAge now [⟨("bitcoin"), ("BTC"), .fin false 1, 0, false⟩]
            ("BTC")).1) :=
  ⟨by decide,
    c9_lookup_either_field [⟨("bitcoin"), ("BTC"), .fin false 1, 0, false⟩]
      ⟨("bitcoin"), ("BTC"), .fin false 1, 0, false⟩ ("bitcoin") ("BTC")
      (by decide) rfl rfl (by decide) (by decide)⟩

/-- C10: when the first REST fetch fails, the factory still resolves and the
registry is empty; failed polls leave it empty, and `getPrice` on any symbol
other than the reference currency fails with the unknown-asset error. -/
theorem c10_connect_first_fetch_failure (now t : ℤ) (symbol : String)
    (hUsd : symbol ≠ ("USD")) :
    connectCoinCapInit now none = [] ∧
    fetchAssetsStep t [] none = [] ∧
    (getPrice t [] symbol).1 = .error .unknownAsset := by
  have hb : (symbol == ("USD")) = false := beq_eq_false_iff_ne.mpr hUsd
  exact ⟨rfl, rfl, by simp [getPrice, getPriceAux, getAsset, hb]⟩

/-- C10 witness: concrete times and the symbol BTC. -/
theorem c10_witness :
    (("BTC") : String) ≠ ("USD") ∧
    (connectCoinCapInit 0 none = [] ∧
      fetchAssetsStep 20000 [] none = [] ∧
      (getPrice 20000 [] ("BTC")).1 = .error .unknownAsset) :=
  ⟨by decide, c10_connect_first_fetch_failure 0 20000 ("BTC") (by decide)⟩

/-- C7: the socket message handler raises exactly when the decoded payload
does not validate (an invalid payload is never silently dropped), and a
validating payload is always merged into the registry via `updatePrices`. -/
theorem c7_message_handler (now : ℤ) (assets : List CoinCapAsset)
    (parsed : Option JsonVal) :
    ((∃ e, handleMessage now assets parsed = .error e) ↔
      isValidPriceResponse parsed assets ≠ .ok true) ∧
    (∀ v, parsed = some v → isValidPriceResponse parsed assets = .ok true →
      handleMessage now assets parsed = .ok (updatePrices now assets v)) := by
  constructor
  · rcases hv : isValidPriceResponse parsed assets with e | b
    · constructor
      · intro _
        simp
      · intro _
        exact ⟨.typeError, by simp [handleMessage, hv]⟩
    · cases b
      · constructor
        · intro _
          simp
        · intro _
          exact ⟨.invalidResponse, by simp [handleMessage, hv]⟩
      · constructor
        · rintro ⟨e, he⟩
          intro _
          rcases parsed with _ | v <;> simp [handleMessage, hv] at he
        · intro h
          exact absurd rfl h
  · rintro v rfl hv
    simp [handleMessage, hv]

/-- C7 witness: a valid one-key payload for a known id is merged, and its
validity is concrete. -/
theorem c7_witness :
    (some (JsonVal.obj [(("bitcoin"), .str ("42"))]) =
      some (JsonVal.obj [(("bitcoin"), .str ("42"))])) ∧
    isValidPriceResponse (some (JsonVal.obj [(("bitcoin"), .str ("42"))]))
      [⟨("bitcoin"), ("BTC"), .fin false 1, 0, true⟩] = .ok true ∧
    handleMessage 7 [⟨("bitcoin"), ("BTC"), .fin false 1, 0, true⟩]
        (some (JsonVal.obj [(("bitcoin"), .str ("42"))])) =
      .ok (updatePrices 7 [⟨("bitcoin"), ("BTC"), .fin false 1, 0, true⟩]
        (JsonVal.obj [(("bitcoin"), .str ("42"))])) :=
  ⟨rfl, rfl,
    (c7_message_handler 7 [⟨("bitcoin"), ("BTC"), .fin false 1, 0, true⟩]
        (some (JsonVal.obj [(("bitcoin"), .str ("42"))]))).2
      (JsonVal.obj [(("bitcoin"), .str ("42"))]) rfl rfl⟩

/-- C3 counterexample: with a non-decreasing clock (constant at 100) and an
entry whose timestamp 50 is at most the clock, a REST merge whose snapshot
drops the symbol followed by one that restores it leaves the BTC entry with
`updatedAt = 5 < 50`: across sequences of merges, `updatedAt` can decrease. -/
theorem c3_counterexample :
    ClockMono 50 [((100 : ℤ), .rest ⟨[], 0⟩),
      ((100 : ℤ), .rest ⟨[⟨("bitcoin"), ("BTC"), ("9")⟩], 5⟩)] ∧
    (∀ b ∈ ([⟨("bitcoin"), ("BTC"), .fin false 1, 50, true⟩] : List CoinCapAsset),
      b.updated ≤ 50) ∧
    (runFeed [⟨("bitcoin"), ("BTC"), .fin false 1, 50, true⟩]
        [((100 : ℤ), .rest ⟨[], 0⟩),
          ((100 : ℤ), .rest ⟨[⟨("bitcoin"), ("BTC"), ("9")⟩], 5⟩)]).map
      (fun b => (b.symbol, b.updated)) = [((("BTC") : String), (5 : ℤ))] ∧
    (5 : ℤ) < 50 :=
  ⟨rfl, by decide, by decide, by decide⟩

/-- C3 (amended): along any event sequence with a non-decreasing local clock,
starting from a registry with unique symbols whose timestamps do not exceed
the clock, the `updatedAt` of an entry never decreases — provided every REST
snapshot in the sequence retains the entry's symbol (without that proviso a
drop-and-restore decreases it, see the counterexample); moreover a REST merge
whose snapshot timestamp is strictly older than the local entry's timestamp
leaves the local entry unchanged. -/
theorem c3_updatedAt_monotone (t0 : ℤ) (init : List CoinCapAsset)
    (ops : List (ℤ × FeedOp)) (a : CoinCapAsset)
    (hClock : ClockMono t0 ops)
    (hWF : ∀ b ∈ init, b.updated ≤ t0)
    (ha : a ∈ init)
    (hNd : (init.map fun b => b.symbol).Nodup)
    (hKeep : ∀ p ∈ ops, KeepsSymbol a.symbol p.2) :
    ((∀ b ∈ runFeed init ops, b.symbol = a.symbol → a.updated ≤ b.updated) ∧
      (∃ b ∈ runFeed init ops, b.symbol = a.symbol)) ∧
    (∀ (now2 : ℤ) (assets2 : List CoinCapAsset) (resp : CoinCapAssetsResponse)
        (item : AssetSnapshotItem) (b : CoinCapAsset), item ∈ resp.data →
      assets2.find? (fun x => x.symbol == item.symbol) = some b →
      resp.timestamp < b.updated → b ∈ updateAssets now2 assets2 resp) := by
  constructor
  · refine runFeed_symbol_mono ops t0 a.updated init a.symbol hClock hWF ?_
      ⟨a, ha, rfl⟩ hKeep
    intro b hb hbs
    have hba : b = a := List.inj_on_of_nodup_map hNd hb ha hbs
    exact hba ▸ le_refl _
  · intro now2 assets2 resp item b hitem hf hts
    refine List.mem_map.mpr ⟨item, hitem, ?_⟩
    rw [hf]
    simp [hts]

/-- C3 witness: one push and one retaining REST merge over a unique-symbol
registry with a monotone clock. -/
theorem c3_witness :
    ClockMono 50 [((60 : ℤ), .push (.obj [(("bitcoin"), .str ("9"))])),
      ((70 : ℤ), .rest ⟨[⟨("bitcoin"), ("BTC"), ("9")⟩], 65⟩)] ∧
    (∀ b ∈ ([⟨("bitcoin"), ("BTC"), .fin false 1, 40, true⟩] : List CoinCapAsset),
      b.updated ≤ 50) ∧
    ((⟨("bitcoin"), ("BTC"), .fin false 1, 40, true⟩ : CoinCapAsset) ∈
      ([⟨("bitcoin"), ("BTC"), .fin false 1, 40, true⟩] : List CoinCapAsset)) ∧
    (([⟨("bitcoin"), ("BTC"), .fin false 1, 40, true⟩] : List CoinCapAsset).map
      (fun b => b.symbol)).Nodup ∧
    (((∀ b ∈ runFeed [⟨("bitcoin"), ("BTC"), .fin false 1, 40, true⟩]
          [((60 : ℤ), .push (.obj [(("bitcoin"), .str ("9"))])),
            ((70 : ℤ), .rest ⟨[⟨("bitcoin"), ("BTC"), ("9")⟩], 65⟩)],
        b.symbol = ("BTC") → (40 : ℤ) ≤ b.updated) ∧
      (∃ b ∈ runFeed [⟨("bitcoin"), ("BTC"), .fin false 1, 40, true⟩]
          [((60 : ℤ), .push (.obj [(("bitcoin"), .str ("9"))])),
            ((70 : ℤ), .rest ⟨[⟨("bitcoin"), ("BTC"), ("9")⟩], 65⟩)],
        b.symbol = ("BTC"))) ∧
      (∀ (now2 : ℤ) (assets2 : List CoinCapAsset) (resp : CoinCapAssetsResponse)
          (item : AssetSnapshotItem) (b : CoinCapAsset), item ∈ resp.data →
        assets2.find? (fun x => x.symbol == item.symbol) = some b →
        resp.timestamp < b.updated → b ∈ updateAssets now2 assets2 resp)) :=
  ⟨rfl, by decide, by decide, by decide,
    c3_updatedAt_monotone 50 [⟨("bitcoin"), ("BTC"), .fin false 1, 40, true⟩]
      [((60 : ℤ), .push (.obj [(("bitcoin"), .str ("9"))])),
        ((70 : ℤ), .rest ⟨[⟨("bitcoin"), ("BTC"), ("9")⟩], 65⟩)]
      ⟨("bitcoin"), ("BTC"), .fin false 1, 40, true⟩
      rfl (by decide) (by decide) (by decide)
      (by
        intro p hp
        rcases List.mem_cons.mp hp with rfl | hp
        · exact trivial
        rcases List.mem_cons.mp hp with rfl | hp
        · exact ⟨⟨("bitcoin"), ("BTC"), ("9")⟩, by simp, rfl⟩
        · cases hp)⟩

/-- C5 counterexample: an entry subscribed at the start; a REST merge whose
snapshot drops the symbol followed by one that restores it yields a BTC entry
with `subscribed = false` before any disconnect: the flag does not persist
across arbitrary merge sequences. -/
theorem c5_counterexample :
    (([⟨("bitcoin"), ("BTC"), .fin false 1, 0, true⟩] : List CoinCapAsset).map
      (fun b => b.subscribe) = [true]) ∧
    (runFeed [⟨("bitcoin"), ("BTC"), .fin false 1, 0, true⟩]
        [((100 : ℤ), .rest ⟨[], 0⟩),
          ((100 : ℤ), .rest ⟨[⟨("bitcoin"), ("BTC"), ("9")⟩], 5⟩)]).map
      (fun b => (b.symbol, b.subscribe)) = [((("BTC") : String), false)] :=
  ⟨by decide, by decide⟩

/-- C5 (amended): starting from a registry with unique symbols, once an
entry's subscribed flag is true it remains true across any sequence of REST
merges, push merges and subscribe transitions — provided every REST snapshot
in the sequence retains the entry's symbol (without that proviso a
drop-and-restore resets the flag, see the counterexample). -/
theorem c5_subscribed_persists (init : List CoinCapAsset)
    (ops : List (ℤ × FeedOp)) (a : CoinCapAsset)
    (ha : a ∈ init) (hSub : a.subscribe = true)
    (hNd : (init.map fun b => b.symbol).Nodup)
    (hKeep : ∀ p ∈ ops, KeepsSymbol a.symbol p.2) :
    (∀ b ∈ runFeed init ops, b.symbol = a.symbol → b.subscribe = true) ∧
    (∃ b ∈ runFeed init ops, b.symbol = a.symbol) := by
  refine runFeed_subscribe_persists ops init a.symbol ?_ ⟨a, ha, rfl⟩ hKeep
  intro b hb hbs
  have hba : b = a := List.inj_on_of_nodup_map hNd hb ha hbs
  exact hba ▸ hSub

/-- C5 witness: a subscribed entry, one push merge and one retaining REST
merge. -/
theorem c5_witness :
    ((⟨("bitcoin"), ("BTC"), .fin false 1, 40, true⟩ : CoinCapAsset) ∈
      ([⟨("bitcoin"), ("BTC"), .fin false 1, 40, true⟩] : List CoinCapAsset)) ∧
    (⟨("bitcoin"), ("BTC"), .fin false 1, 40, true⟩ : CoinCapAsset).subscribe = true ∧
    ((∀ b ∈ runFeed [⟨("bitcoin"), ("BTC"), .fin false 1, 40, true⟩]
        [((60 : ℤ), .push (.obj [(("bitcoin"), .str ("9"))])),
          ((70 : ℤ), .rest ⟨[⟨("bitcoin"), ("BTC"), ("9")⟩], 65⟩)],
      b.symbol = ("BTC") → b.subscribe = true) ∧
    (∃ b ∈ runFeed [⟨("bitcoin"), ("BTC"), .fin false 1, 40, true⟩]
        [((60 : ℤ), .push (.obj [(("bitcoin"), .str ("9"))])),
          ((70 : ℤ), .rest ⟨[⟨("bitcoin"), ("BTC"), ("9")⟩], 65⟩)],
      b.symbol = ("BTC"))) :=
  ⟨by decide, rfl,
    c5_subscribed_persists [⟨("bitcoin"), ("BTC"), .fin false 1, 40, true⟩]
      [((60 : ℤ), .push (.obj [(("bitcoin"), .str ("9"))])),
        ((70 : ℤ), .rest ⟨[⟨("bitcoin"), ("BTC"), ("9")⟩], 65⟩)]
      ⟨("bitcoin"), ("BTC"), .fin false 1, 40, true⟩
      (by decide) rfl (by decide)
      (by
        intro p hp
        rcases List.mem_cons.mp hp with rfl | hp
        · exact trivial
        rcases List.mem_cons.mp hp with rfl | hp
        · exact ⟨⟨("bitcoin"), ("BTC"), ("9")⟩, by simp, rfl⟩
        · cases hp)⟩

/-- C6 counterexample: the validator accepts the payload `{"bitcoin": "0"}`
for a registry knowing the id `bitcoin`, although "0" parses to the decimal
zero, which is not strictly positive (`isPositive` is sign-based and zero
carries a plus sign); and a decoded `null` payload makes the validator raise
a TypeError (`typeof null` is `'object'`, then `Object.keys(null)` throws)
instead of returning invalid. -/
theorem c6_counterexample :
    isValidPriceResponse (some (.obj [(("bitcoin"), .str ("0"))]))
      [⟨("bitcoin"), ("BTC"), .fin false 1, 0, false⟩] = .ok true ∧
    (bignumParse ("0")).toRat = some 0 ∧
    ¬ (0 : ℚ) < 0 ∧
    isValidPriceResponse (some .null)
      [⟨("bitcoin"), ("BTC"), .fin false 1, 0, false⟩] = .error () :=
  ⟨rfl, rfl, by norm_num, rfl⟩

/-- C6 (amended): the validator raises exactly on a decoded `null` payload
(every other decoded payload, including a failed parse, gets a boolean
verdict without raising), and it answers true only if the payload is of
JavaScript object type, every key is a known asset id, and every value is a
string parsing (per the BigNumber constructor) to a finite decimal that is
zero or positive. -/
theorem c6_validator_only_if (o : Option JsonVal) (assets : List CoinCapAsset) :
    ((∃ e, isValidPriceResponse o assets = .error e) ↔ o = some .null) ∧
    (isValidPriceResponse o assets = .ok true →
      jsTypeofObject o = true ∧
      (∀ k ∈ jsKeysList o, ∃ a ∈ assets, a.id = k) ∧
      (∀ v ∈ jsValuesList o, ∃ s q, v = .str s ∧
        (bignumParse s).toRat = some q ∧ 0 ≤ q)) := by
  rcases o with _ | v
  · exact ⟨by simp [isValidPriceResponse], by simp [isValidPriceResponse]⟩
  · cases v with
    | null =>
      exact ⟨by simp [isValidPriceResponse], by simp [isValidPriceResponse]⟩
    | bool b =>
      exact ⟨by simp [isValidPriceResponse], by simp [isValidPriceResponse]⟩
    | num q =>
      exact ⟨by simp [isValidPriceResponse], by simp [isValidPriceResponse]⟩
    | str s =>
      exact ⟨by simp [isValidPriceResponse], by simp [isValidPriceResponse]⟩
    | arr es =>
      constructor
      · simp [isValidPriceResponse]
      · intro h
        have hAB := Except.ok.inj h
        rw [Bool.and_eq_true] at hAB
        refine ⟨rfl, ?_, ?_⟩
        · intro k hk
          simp only [jsKeysList, List.mem_map] at hk
          obtain ⟨i, hi, rfl⟩ := hk
          have h1 := (List.all_eq_true.mp hAB.1) i hi
          obtain ⟨a, ha, hid⟩ := List.any_eq_true.mp h1
          exact ⟨a, ha, eq_of_beq hid⟩
        · intro v hv
          simp only [jsValuesList] at hv
          exact isValidPriceResponseValue_props v
            ((List.all_eq_true.mp hAB.2) v hv)
    | obj fields =>
      constructor
      · simp [isValidPriceResponse]
      · intro h
        have hAB := Except.ok.inj h
        rw [Bool.and_eq_true] at hAB
        refine ⟨rfl, ?_, ?_⟩
        · intro k hk
          simp only [jsKeysList, List.mem_map] at hk
          obtain ⟨kv, hkv, rfl⟩ := hk
          have h1 := (List.all_eq_true.mp hAB.1) kv hkv
          obtain ⟨a, ha, hid⟩ := List.any_eq_true.mp h1
          exact ⟨a, ha, eq_of_beq hid⟩
        · intro v hv
          simp only [jsValuesList, List.mem_map] at hv
          obtain ⟨kv, hkv, rfl⟩ := hv
          exact isValidPriceResponseValue_props kv.2
            ((List.all_eq_true.mp hAB.2) kv hkv)

/-- C6 witness: the payload `{"bitcoin": "42"}` against a registry knowing
the id — concretely valid, with the guaranteed shape facts instantiated. -/
theorem c6_witness :
    isValidPriceResponse (some (.obj [(("bitcoin"), .str ("42"))]))
      [⟨("bitcoin"), ("BTC"), .fin false 1, 0, false⟩] = .ok true ∧
    (jsTypeofObject (some (JsonVal.obj [(("bitcoin"), .str ("42"))])) = true ∧
      (∀ k ∈ jsKeysList (some (JsonVal.obj [(("bitcoin"), .str ("42"))])),
        ∃ a ∈ ([⟨("bitcoin"), ("BTC"), .fin false 1, 0, false⟩] : List CoinCapAsset),
          a.id = k) ∧
      (∀ v ∈ jsValuesList (some (JsonVal.obj [(("bitcoin"), .str ("42"))])),
        ∃ s q, v = .str s ∧ (bignumParse s).toRat = some q ∧ 0 ≤ q)) :=
  ⟨rfl,
    (c6_validator_only_if (some (.obj [(("bitcoin"), .str ("42"))]))
      [⟨("bitcoin"), ("BTC"), .fin false 1, 0, false⟩]).2 rfl⟩

end CryptoRateUtils
